import Mathlib

/-!
Verification of the `prism` HTTP request-echo server (Go).

The file shallowly embeds the two core subsystems of the repository:

* the port-acquisition functions `findAvailablePort` (bounded variant,
  `prism.go` lines 195-246, and the legacy unbounded variant, lines
  527-551 / 777-801) together with `getPortFromEnv` (prefix-extraction
  variant, lines 249-283, and plain-`Atoi` variant, lines 804-823);
* the request-normalization handler `echoHandler` / `getFullURL`
  (lines 286-401 and 590-699), including a model of JSON
  parsing/serialization (Go `encoding/json`), multipart form data and
  the body-replay buffer.

Byte strings are modelled as `List Char` (the inputs of interest are
ASCII); Go `int` is modelled as `Int` with the 64-bit overflow check made
explicit where `strconv.Atoi` performs it.
-/

namespace Prism

/-- Byte strings of the Go program, modelled as lists of characters. -/
abbrev Str := List Char

/-- The character `{` (written by code point to keep sources plain). -/
def lbrace : Char := Char.ofNat 123

/-- The character `}` (written by code point to keep sources plain). -/
def rbrace : Char := Char.ofNat 125

/-- Substring test, models Go `strings.Contains`. -/
def containsSub (hay needle : Str) : Bool :=
  hay.tails.any (fun t => needle.isPrefixOf t)

/-- Lower-casing of a byte string, models Go `strings.ToLower` on ASCII. -/
def lowerChars (s : Str) : Str := s.map Char.toLower

/-- JSON whitespace. -/
def isWs (c : Char) : Bool := c = ' ' || c = '\n' || c = '\t' || c = '\r'

/-- Drop leading JSON whitespace. -/
def skipWs : Str → Str
  | [] => []
  | c :: cs => if isWs c then skipWs cs else c :: cs

/-- The decimal digit character for `n < 10`. -/
def digitCh (n : Nat) : Char := Char.ofNat (48 + n)

/-- Decimal digits of a natural number, most significant first. -/
def natDigits (n : Nat) : Str :=
  if _h : n < 10 then [digitCh n]
  else natDigits (n / 10) ++ [digitCh (n % 10)]
decreasing_by exact Nat.div_lt_self (by omega) (by omega)

/-- Numeric value of a digit string (digits are assumed checked). -/
def digitsToNat (ds : Str) : Nat :=
  ds.foldl (fun a c => a * 10 + (c.toNat - 48)) 0

theorem digitCh_facts (n : Nat) (h : n < 10) :
    (digitCh n).isDigit = true ∧ isWs (digitCh n) = false ∧
    (digitCh n).toNat = 48 + n ∧ digitCh n ≠ 'n' ∧ digitCh n ≠ 't' ∧
    digitCh n ≠ 'f' ∧ digitCh n ≠ '"' ∧ digitCh n ≠ '[' ∧ digitCh n ≠ lbrace ∧
    digitCh n ≠ ']' ∧ digitCh n ≠ rbrace ∧ digitCh n ≠ ',' ∧ digitCh n ≠ '-' := by
  interval_cases n <;> decide

theorem natDigits_ne_nil (n : Nat) : natDigits n ≠ [] := by
  rw [natDigits]
  split
  · simp
  · simp

theorem mem_natDigits (n : Nat) : ∀ c ∈ natDigits n, ∃ k, k < 10 ∧ c = digitCh k := by
  induction n using Nat.strongRecOn with
  | _ n ih =>
    intro c hc
    rw [natDigits] at hc
    split at hc
    · simp at hc
      exact ⟨n, by omega, hc⟩
    · rename_i h
      rcases List.mem_append.mp hc with h1 | h2
      · exact ih (n / 10) (Nat.div_lt_self (by omega) (by omega)) c h1
      · simp at h2
        exact ⟨n % 10, Nat.mod_lt _ (by omega), h2⟩

/-- Heads are not whitespace, used to push `skipWs` through serialized output. -/
theorem skipWs_cons (c : Char) (cs : Str) (h : isWs c = false) :
    skipWs (c :: cs) = c :: cs := by
  simp [skipWs, h]

/-- Lowercase hexadecimal digit character of `n < 16` (Go's encoder writes
`\u` escapes with the lowercase alphabet). -/
def hexCh (n : Nat) : Char :=
  if n < 10 then Char.ofNat (n + 48) else Char.ofNat (n + 87)

/-- Numeric value of a hexadecimal digit, either letter case accepted, as in
Go's `getu4`. -/
def hexVal (c : Char) : Option Nat :=
  if '0' ≤ c ∧ c ≤ '9' then some (c.toNat - 48)
  else if 'a' ≤ c ∧ c ≤ 'f' then some (c.toNat - 87)
  else if 'A' ≤ c ∧ c ≤ 'F' then some (c.toNat - 55)
  else none

/-- The six bytes of a `\uXXXX` escape for a code point below `0x10000`. -/
def escU (v : Nat) : Str :=
  '\\' :: 'u' :: hexCh (v / 4096) :: hexCh (v / 256 % 16) :: hexCh (v / 16 % 16) ::
    [hexCh (v % 16)]

/-- Escape one character of a JSON string as Go `encoding/json`'s encoder
does (with the HTML escaping that `json.Marshal`, hence `c.JSON`, applies):
quote and backslash by their short escapes, newline/return/tab by letter
escapes, the remaining control characters, the HTML-sensitive set and the
two Unicode line separators by `\u` escapes, and everything else raw. -/
def escChar (c : Char) : Str :=
  if c = '"' then '\\' :: ['"']
  else if c = '\\' then '\\' :: ['\\']
  else if c = '\n' then '\\' :: ['n']
  else if c = '\r' then '\\' :: ['r']
  else if c = '\t' then '\\' :: ['t']
  else if c.toNat < 32 then escU c.toNat
  else if c = '<' ∨ c = '>' ∨ c = '&' then escU c.toNat
  else if c.toNat = 8232 ∨ c.toNat = 8233 then escU c.toNat
  else [c]

/-- Escape a JSON string body. -/
def escStr : Str → Str
  | [] => []
  | c :: cs => escChar c ++ escStr cs

/-- Four hexadecimal digits combined into one code unit (Go `getu4`). -/
def hex4 (a b c d : Char) : Option Nat :=
  match hexVal a, hexVal b, hexVal c, hexVal d with
  | some x, some y, some z, some w => some (((x * 16 + y) * 16 + z) * 16 + w)
  | _, _, _, _ => none

/-- Parse the body of a JSON string literal after the opening quote, as Go's
scanner plus `unquoteBytes` do: a raw control character is rejected, the
accepted escapes are `\"` `\\` `\/` `\b` `\f` `\n` `\r` `\t` and `\uXXXX`
(four hex digits mandatory), a surrogate pair of `\u` escapes combines into
one code point, and an unpaired surrogate becomes U+FFFD without error,
consuming only its own escape.  The first argument is the pending high
surrogate read in the previous step, if any (Go resolves it against the
next escape before writing anything); `acc` holds the characters read so
far, in reverse. -/
def parseStrCore : Option Nat → Str → Str → Option (Str × Str)
  | _, [], _ => none
  | some v, '\\' :: 'u' :: a :: b :: c :: d :: cs, acc =>
    match hex4 a b c d with
    | none => none
    | some w =>
      if 56320 ≤ w ∧ w ≤ 57343 then
        parseStrCore none cs
          (Char.ofNat (65536 + (v - 55296) * 1024 + (w - 56320)) :: acc)
      else if 55296 ≤ w ∧ w ≤ 56319 then
        parseStrCore (some w) cs (Char.ofNat 65533 :: acc)
      else parseStrCore none cs (Char.ofNat w :: Char.ofNat 65533 :: acc)
  | some _, '"' :: cs, acc => some ((Char.ofNat 65533 :: acc).reverse, cs)
  | some _, '\\' :: e :: cs, acc =>
    if e = '"' then parseStrCore none cs ('"' :: Char.ofNat 65533 :: acc)
    else if e = '\\' then parseStrCore none cs ('\\' :: Char.ofNat 65533 :: acc)
    else if e = '/' then parseStrCore none cs ('/' :: Char.ofNat 65533 :: acc)
    else if e = 'b' then parseStrCore none cs (Char.ofNat 8 :: Char.ofNat 65533 :: acc)
    else if e = 'f' then parseStrCore none cs (Char.ofNat 12 :: Char.ofNat 65533 :: acc)
    else if e = 'n' then parseStrCore none cs ('\n' :: Char.ofNat 65533 :: acc)
    else if e = 'r' then parseStrCore none cs ('\r' :: Char.ofNat 65533 :: acc)
    else if e = 't' then parseStrCore none cs ('\t' :: Char.ofNat 65533 :: acc)
    else none
  | some _, c :: cs, acc =>
    if c.toNat < 32 then none
    else parseStrCore none cs (c :: Char.ofNat 65533 :: acc)
  | none, c :: cs, acc =>
    if c = '"' then some (acc.reverse, cs)
    else if c = '\\' then
      match cs with
      | [] => none
      | e :: cs2 =>
        if e = '"' then parseStrCore none cs2 ('"' :: acc)
        else if e = '\\' then parseStrCore none cs2 ('\\' :: acc)
        else if e = '/' then parseStrCore none cs2 ('/' :: acc)
        else if e = 'b' then parseStrCore none cs2 (Char.ofNat 8 :: acc)
        else if e = 'f' then parseStrCore none cs2 (Char.ofNat 12 :: acc)
        else if e = 'n' then parseStrCore none cs2 ('\n' :: acc)
        else if e = 'r' then parseStrCore none cs2 ('\r' :: acc)
        else if e = 't' then parseStrCore none cs2 ('\t' :: acc)
        else if e = 'u' then
          match cs2 with
          | a :: b :: c2 :: d :: cs3 =>
            match hex4 a b c2 d with
            | none => none
            | some v =>
              if v < 55296 ∨ 57343 < v then parseStrCore none cs3 (Char.ofNat v :: acc)
              else if v ≤ 56319 then parseStrCore (some v) cs3 acc
              else parseStrCore none cs3 (Char.ofNat 65533 :: acc)
          | _ => none
        else none
    else if c.toNat < 32 then none
    else parseStrCore none cs (c :: acc)

/-- The string-body parser in its initial state. -/
def parseStrBody (cs acc : Str) : Option (Str × Str) :=
  parseStrCore none cs acc

/-- Match a fixed literal suffix (used for `null`, `true`, `false`). -/
def matchLit : Str → Str → Option Str
  | [], cs => some cs
  | p :: ps, c :: cs => if c = p then matchLit ps cs else none
  | _ :: _, [] => none

theorem matchLit_self (ps : Str) : ∀ rest, matchLit ps (ps ++ rest) = some rest := by
  induction ps with
  | nil => intro rest; rfl
  | cons p ps ih => intro rest; simp [matchLit, ih rest]

/-! ### JSON values (model of the `interface\x7b\x7d` values produced by
`encoding/json.Unmarshal` in `echoHandler`) -/

/-- A JSON document/value as decoded by `encoding/json.Unmarshal` into an
untyped interface value.  Go stores every JSON number as a `float64`; a
finite `float64` is an exact dyadic rational, kept here as the pair
`m / 2^q` (with `q = 0` for integral values, so the integer `5` is
`num 5 0` and the value `1.5` is `num 3 1`). -/
inductive Json where
  | null
  | bool (b : Bool)
  | num (m : Int) (q : Nat)
  | str (s : Str)
  | arr (elems : List Json)
  | obj (fields : List (Str × Json))

/-- Serialize an integer in decimal. -/
def serInt (i : Int) : Str :=
  if i < 0 then '-' :: natDigits i.natAbs else natDigits i.natAbs

/-! #### Decoding decimal literals to `float64` (`strconv.ParseFloat`)

`json.Unmarshal` converts every number literal to the nearest IEEE-754
binary64 value (round half to even), failing with `ErrRange` on overflow to
infinity or underflow to zero.  The conversion is modelled exactly, on the
number's value `D * 10^E`, with the resulting `float64` kept as an exact
dyadic rational. -/

/-- Bit length of a natural number, with explicit fuel (the first argument)
so that it evaluates by definitional reduction; `bitLen` instantiates the
fuel sufficiently. -/
def bitsOf : Nat → Nat → Nat
  | 0, _ => 0
  | f + 1, n => if n = 0 then 0 else bitsOf f (n / 2) + 1

/-- Bit length: `bitLen n = k` iff `2^(k-1) ≤ n < 2^k` (and `bitLen 0 = 0`). -/
def bitLen (n : Nat) : Nat := bitsOf n n

/-- Round half to even of the ratio `p / q` (`q` positive): the rounding
IEEE-754 binary64 arithmetic uses. -/
def rhe (p q : Nat) : Nat :=
  if q < 2 * (p % q) then p / q + 1
  else if 2 * (p % q) < q then p / q
  else if p / q % 2 = 0 then p / q else p / q + 1

/-- `rhe` of `(p / q) / 2^e` for a signed binary exponent `e`. -/
def scaledRhe (p q : Nat) (e : Int) : Nat :=
  if 0 ≤ e then rhe p (q * 2 ^ e.toNat) else rhe (p * 2 ^ (-e).toNat) q

/-- Starting from the (at most three steps low) exponent estimate `e`, raise
the exponent until the rounded mantissa drops below `2^53`. -/
def fitMantissa (p q : Nat) (e : Int) : Nat × Int :=
  if 2 ^ 53 ≤ scaledRhe p q e then
    if 2 ^ 53 ≤ scaledRhe p q (e + 1) then
      if 2 ^ 53 ≤ scaledRhe p q (e + 2) then (scaledRhe p q (e + 3), e + 3)
      else (scaledRhe p q (e + 2), e + 2)
    else (scaledRhe p q (e + 1), e + 1)
  else (scaledRhe p q e, e)

/-- Range check on a fitted mantissa/exponent pair: `none` models
`strconv.ParseFloat`'s `ErrRange` — overflow past the largest finite value
(exponent beyond 971) or underflow to zero (mantissa 0). -/
def fitCheck : Nat × Int → Option (Nat × Int)
  | (M, e) => if M = 0 then none else if 971 < e then none else some (M, e)

/-- The nearest binary64 value of the positive rational `p / q`, as an exact
pair `(M, e)` of value `M * 2^e` with `M < 2^53` and `e ≥ -1074` (the
exponent floor makes the subnormal range exact as well); `none` on
`ParseFloat`'s range error. -/
def nearestF64 (p q : Nat) : Option (Nat × Int) :=
  if p = 0 then some (0, 0)
  else fitCheck (fitMantissa p q (max (-1074) ((bitLen p : Int) - (bitLen q : Int) - 54)))

/-- Strip the common factors of two from the dyadic `m / 2^q`, so that equal
`float64` values get equal representations. -/
def normDyadic : Nat → Nat → Nat × Nat
  | m, 0 => (m, 0)
  | m, q + 1 => if m % 2 = 0 then normDyadic (m / 2) q else (m, q + 1)

/-- The exact value `M * 2^e` as a canonical dyadic pair. -/
def dyadicOf (M : Nat) (e : Int) : Nat × Nat :=
  if 0 ≤ e then (M * 2 ^ e.toNat, 0) else normDyadic M (-e).toNat

/-- Decode the decimal literal `±D * 10^E` to the `float64` value
`json.Unmarshal` stores, or `none` on `ParseFloat`'s range error (on which
`Unmarshal` fails).  The two exponent guards shortcut decimal exponents so
extreme that the outcome is certain — `D ≥ 1` and `E ≥ 309` is above the
largest finite binary64 (`< 10^309`), and `D < 2^bitLen D` with
`10^E ≤ 2^(3E)` puts `E ≤ -400 - bitLen D` below half the smallest
subnormal — keeping the exact computation on feasible powers of ten. -/
def decodeNumber (neg : Bool) (D : Nat) (E : Int) : Option Json :=
  if D = 0 then some (.num 0 0)
  else if 309 ≤ E then none
  else if E ≤ -400 - (bitLen D : Int) then none
  else
    match nearestF64 (if 0 ≤ E then D * 10 ^ E.toNat else D)
        (if 0 ≤ E then 1 else 10 ^ (-E).toNat) with
    | none => none
    | some (M, e) =>
      some (.num (if neg then -((dyadicOf M e).1 : Int) else ((dyadicOf M e).1 : Int))
        (dyadicOf M e).2)

/-- Decimal digits of `D` with a decimal point `q` places from the right
(zero-padded, `0.05`-style, below one). -/
def decFrac (D q : Nat) : Str :=
  if q < (natDigits D).length then
    (natDigits D).take ((natDigits D).length - q) ++
      '.' :: (natDigits D).drop ((natDigits D).length - q)
  else '0' :: '.' :: List.replicate (q - (natDigits D).length) '0' ++ natDigits D

/-- Serialize the number `m / 2^q`.  An integral value (`q = 0`) prints as a
plain integer — exactly what Go's shortest `float64` formatting emits for
the integral values of magnitude at most `2^53` the round-trip theorem
covers (plain digits are used below `10^21`).  A fractional value prints as
its exact decimal expansion `(m * 5^q) / 10^q`; Go would print the shortest
decimal that reads back to the same `float64`, a difference no claim
touches, as only integral numbers round-trip byte-exactly. -/
def serNum (m : Int) (q : Nat) : Str :=
  if q = 0 then serInt m
  else (if m < 0 then ['-'] else []) ++ decFrac (m.natAbs * 5 ^ q) q

/-- The literal bytes of the JSON keyword `null`. -/
def litNull : Str := 'n' :: 'u' :: 'l' :: ['l']

/-- The literal bytes of the JSON keyword `true`. -/
def litTrue : Str := 't' :: 'r' :: 'u' :: ['e']

/-- The literal bytes of the JSON keyword `false`. -/
def litFalse : Str := 'f' :: 'a' :: 'l' :: 's' :: ['e']

mutual

/-- Compact JSON serialization: models `encoding/json.Marshal`, which the
HTTP layer applies to the `body` field of the response. -/
def serJson : Json → Str
  | .null => litNull
  | .bool true => litTrue
  | .bool false => litFalse
  | .num m q => serNum m q
  | .str s => '"' :: escStr s ++ ['"']
  | .arr xs => '[' :: serElems xs ++ [']']
  | .obj fs => lbrace :: serFields fs ++ [rbrace]

/-- Comma-separated serialization of array elements. -/
def serElems : List Json → Str
  | [] => []
  | x :: xs => serJson x ++ serElemsSep xs

/-- The remaining array elements, each preceded by a comma. -/
def serElemsSep : List Json → Str
  | [] => []
  | x :: xs => ',' :: serJson x ++ serElemsSep xs

/-- Comma-separated serialization of object members. -/
def serFields : List (Str × Json) → Str
  | [] => []
  | (k, v) :: fs => '"' :: escStr k ++ '"' :: ':' :: serJson v ++ serFieldsSep fs

/-- The remaining object members, each preceded by a comma. -/
def serFieldsSep : List (Str × Json) → Str
  | [] => []
  | (k, v) :: fs => ',' :: '"' :: escStr k ++ '"' :: ':' :: serJson v ++ serFieldsSep fs

end

/-- The integer part of a JSON number, per the grammar Go's scanner
enforces: a single `0`, or a nonzero digit followed by any digits (so `01`
ends the number token after the `0` and the stray `1` errors in context,
exactly as in Go). -/
def parseIntPart : Str → Option (Str × Str)
  | [] => none
  | c :: cs =>
    if c = '0' then some (['0'], cs)
    else if c.isDigit then
      some (c :: cs.takeWhile Char.isDigit, cs.dropWhile Char.isDigit)
    else none

/-- The optional fraction part: absent unless the input starts with `.`, and
a `.` must be followed by at least one digit. -/
def fracScan : Str → Option (Str × Str)
  | [] => some ([], [])
  | c :: cs =>
    if c = '.' then
      if cs.takeWhile Char.isDigit = [] then none
      else some (cs.takeWhile Char.isDigit, cs.dropWhile Char.isDigit)
    else some ([], c :: cs)

/-- The digits of an exponent after the optional sign: at least one digit is
required. -/
def expDigits (sign : Int) (cs : Str) : Option (Int × Str) :=
  if cs.takeWhile Char.isDigit = [] then none
  else some (sign * (digitsToNat (cs.takeWhile Char.isDigit) : Int),
    cs.dropWhile Char.isDigit)

/-- The optional exponent part: absent unless the input starts with `e` or
`E`, then an optional sign and at least one digit. -/
def expScan : Str → Option (Int × Str)
  | [] => some (0, [])
  | c :: cs =>
    if c = 'e' ∨ c = 'E' then
      match cs with
      | '+' :: r => expDigits 1 r
      | '-' :: r => expDigits (-1) r
      | r => expDigits 1 r
    else some (0, c :: cs)

/-- Parse the part of a JSON number after the optional minus sign and decode
it (`decodeNumber`) to the `float64` value Go stores. -/
def parseNumBody (neg : Bool) (cs : Str) : Option (Json × Str) :=
  match parseIntPart cs with
  | none => none
  | some (intDs, cs2) =>
    match fracScan cs2 with
    | none => none
    | some (fracDs, cs3) =>
      match expScan cs3 with
      | none => none
      | some (expVal, rest) =>
        (decodeNumber neg (digitsToNat (intDs ++ fracDs))
          (expVal - (fracDs.length : Int))).map (fun j => (j, rest))

/-- Parse a JSON number: optional minus sign, integer part, optional
fraction and exponent — the grammar of Go's json scanner — decoded into the
nearest `float64`. -/
def parseNum : Str → Option (Json × Str)
  | [] => none
  | c :: cs => if c = '-' then parseNumBody true cs else parseNumBody false (c :: cs)

/-- Loop over the remaining elements of a JSON array; `pv` parses one value
and `acc` holds the elements read so far, in reverse. -/
def elemsLoop (pv : Str → Option (Json × Str)) : Nat → Str → List Json → Option (Json × Str)
  | 0, _, _ => none
  | fuel + 1, cs, acc =>
    match pv cs with
    | none => none
    | some (v, rest) =>
      match skipWs rest with
      | ',' :: r => elemsLoop pv fuel r (v :: acc)
      | ']' :: r => some (.arr (v :: acc).reverse, r)
      | _ => none

/-- Loop over the remaining members of a JSON object. -/
def fieldsLoop (pv : Str → Option (Json × Str)) : Nat → Str → List (Str × Json) →
    Option (Json × Str)
  | 0, _, _ => none
  | fuel + 1, cs, acc =>
    match skipWs cs with
    | '"' :: rest =>
      match parseStrBody rest [] with
      | none => none
      | some (k, rest2) =>
        match skipWs rest2 with
        | ':' :: rest3 =>
          match pv rest3 with
          | none => none
          | some (v, rest4) =>
            match skipWs rest4 with
            | ',' :: r => fieldsLoop pv fuel r ((k, v) :: acc)
            | c :: r2 =>
              if c = rbrace then some (.obj ((k, v) :: acc).reverse, r2) else none
            | [] => none
        | _ => none
    | _ => none

/-- Parse one JSON value; the fuel bounds the recursion depth. -/
def parseVal : Nat → Str → Option (Json × Str)
  | 0, _ => none
  | fuel + 1, cs =>
    match skipWs cs with
    | [] => none
    | c :: rest =>
      if c = 'n' then (matchLit ['u', 'l', 'l'] rest).map (fun r => (.null, r))
      else if c = 't' then (matchLit ['r', 'u', 'e'] rest).map (fun r => (.bool true, r))
      else if c = 'f' then (matchLit ['a', 'l', 's', 'e'] rest).map (fun r => (.bool false, r))
      else if c = '"' then (parseStrBody rest []).map (fun p => (.str p.1, p.2))
      else if c = '[' then
        match skipWs rest with
        | c2 :: rest2 =>
          if c2 = ']' then some (.arr [], rest2)
          else elemsLoop (parseVal fuel) fuel (c2 :: rest2) []
        | [] => none
      else if c = lbrace then
        match skipWs rest with
        | c2 :: rest2 =>
          if c2 = rbrace then some (.obj [], rest2)
          else fieldsLoop (parseVal fuel) fuel (c2 :: rest2) []
        | [] => none
      else parseNum (c :: rest)

/-- Parse a complete JSON document: models `encoding/json.Unmarshal` into an
untyped value (numbers kept exact). The whole input must be consumed up to
trailing whitespace. -/
def parseJson (cs : Str) : Option Json :=
  match parseVal (cs.length + 2) cs with
  | some (v, rest) => if skipWs rest = [] then some v else none
  | none => none

/-! ### Round trip: the serializer output parses back to the same value -/

theorem serNum_zero (m : Int) : serNum m 0 = serInt m := by
  rw [serNum, if_pos rfl]

theorem decFrac_head (D q : Nat) : ∃ k tl, k < 10 ∧ decFrac D q = digitCh k :: tl := by
  rw [decFrac]
  split
  · rename_i hql
    cases hnd : natDigits D with
    | nil => exact absurd hnd (natDigits_ne_nil D)
    | cons c tl =>
      obtain ⟨k, hk, rfl⟩ := mem_natDigits D c (by rw [hnd]; exact List.mem_cons_self _ _)
      rw [hnd] at hql
      have hcount : (digitCh k :: tl).length - q = (tl.length - q) + 1 := by
        simp at hql ⊢
        omega
      rw [hcount, List.take_succ_cons, List.cons_append]
      exact ⟨k, _, hk, rfl⟩
  · refine ⟨0, '.' :: (List.replicate (q - (natDigits D).length) '0' ++ natDigits D),
      by norm_num, ?_⟩
    rw [show digitCh 0 = '0' from by decide]
    simp

theorem serJson_head_shape (d : Json) : ∃ c tl, serJson d = c :: tl ∧
    isWs c = false ∧ c ≠ ']' ∧ c ≠ rbrace := by
  cases d with
  | null =>
    exact ⟨'n', 'u' :: 'l' :: ['l'], by simp [serJson, litNull], by decide, by decide,
      by decide⟩
  | bool b =>
    cases b with
    | true =>
      exact ⟨'t', 'r' :: 'u' :: ['e'], by simp [serJson, litTrue], by decide, by decide,
        by decide⟩
    | false =>
      exact ⟨'f', 'a' :: 'l' :: 's' :: ['e'], by simp [serJson, litFalse], by decide,
        by decide, by decide⟩
  | num m q =>
    by_cases hq : q = 0
    · subst hq
      by_cases hi : m < 0
      · exact ⟨'-', natDigits m.natAbs, by simp [serJson, serNum, serInt, hi], by decide,
          by decide, by decide⟩
      · cases hnd : natDigits m.natAbs with
        | nil => exact absurd hnd (natDigits_ne_nil _)
        | cons c tl =>
          obtain ⟨k, hk, rfl⟩ := mem_natDigits _ c (by rw [hnd]; exact List.mem_cons_self _ _)
          obtain ⟨_, h2, _, _, _, _, _, _, _, h3, h4, _, _⟩ := digitCh_facts k hk
          exact ⟨digitCh k, tl, by simp [serJson, serNum, serInt, hi, hnd], h2, h3, h4⟩
    · by_cases hi : m < 0
      · exact ⟨'-', decFrac (m.natAbs * 5 ^ q) q,
          by simp [serJson, serNum, hq, hi], by decide, by decide, by decide⟩
      · obtain ⟨k, tl, hk, hdf⟩ := decFrac_head (m.natAbs * 5 ^ q) q
        obtain ⟨_, h2, _, _, _, _, _, _, _, h3, h4, _, _⟩ := digitCh_facts k hk
        exact ⟨digitCh k, tl, by simp [serJson, serNum, hq, hi, hdf], h2, h3, h4⟩
  | str s =>
    exact ⟨'"', escStr s ++ ['"'], by simp [serJson], by decide, by decide, by decide⟩
  | arr xs =>
    exact ⟨'[', serElems xs ++ [']'], by simp [serJson], by decide, by decide, by decide⟩
  | obj fs =>
    exact ⟨lbrace, serFields fs ++ [rbrace], by simp [serJson], by decide, by decide,
      by decide⟩

theorem skipWs_serJson (d : Json) (r : Str) :
    skipWs (serJson d ++ r) = serJson d ++ r := by
  obtain ⟨c, tl, hd, hws, _, _⟩ := serJson_head_shape d
  rw [hd, List.cons_append, skipWs_cons _ _ hws]

/-- Conflict-class bind errors recognized by the bounded resolver
(`prism.go` lines 231-239): the lowercased error text contains one of
three phrases. -/
def isConflictErr (msg : Str) : Bool :=
  containsSub (lowerChars msg) ("address already in use".toList) ||
  containsSub (lowerChars msg) ("only one usage of each socket address".toList) ||
  containsSub (lowerChars msg) ("access permissions".toList)

/-- Conflict-class bind errors recognized by the legacy resolver
(`prism.go` lines 541-542 and 791-792): two phrases only. -/
def isConflictErrLegacy (msg : Str) : Bool :=
  containsSub (lowerChars msg) ("address already in use".toList) ||
  containsSub (lowerChars msg) ("only one usage of each socket address".toList)

/-- Failure of the port resolver: either the attempt budget was exhausted
("no available ports found after 100 attempts") or a non-conflict bind
error was hit. -/
inductive PortError where
  | exhausted (attempts : Nat)
  | bindFailed (port : Int) (msg : Str)

/-- The loop of `findAvailablePort` (`prism.go` 195-246).  `env port` models
the outcome of the exclusive bind probe on `port`: `none` means the listener
was created (port free), `some msg` the error text.  The fuel argument is the
remaining attempt budget (`maxAttempts - attempts`); the loop also stops once
the candidate exceeds 65535. -/
def findAvailablePortAux (env : Int → Option Str) : Nat → Int → Except PortError Int
  | 0, _ => .error (.exhausted 100)
  | fuel + 1, port =>
    if port ≤ 65535 then
      match env port with
      | none => .ok port
      | some msg =>
        if isConflictErr msg then findAvailablePortAux env fuel (port + 1)
        else .error (.bindFailed port msg)
    else .error (.exhausted 100)

/-- `findAvailablePort` (bounded variant, `prism.go` 195-246):
`maxAttempts = 100`. -/
def findAvailablePort (env : Int → Option Str) (startPort : Int) : Except PortError Int :=
  findAvailablePortAux env 100 startPort

/-- The legacy `findAvailablePort` (`prism.go` 527-551 and 777-801) loops
with no attempt bound and no port ceiling: it stops only on a successful
bind or a non-conflict error.  The fuel argument observes finitely many
iterations of the unbounded `for` loop: `none` means the loop is still
running after that many probes. -/
def findAvailablePortLegacyAux (env : Int → Option Str) : Nat → Int → Option (Except Str Int)
  | 0, _ => none
  | fuel + 1, port =>
    match env port with
    | none => some (.ok port)
    | some msg =>
      if isConflictErrLegacy msg then findAvailablePortLegacyAux env fuel (port + 1)
      else some (.error msg)

theorem findAvailablePortAux_exhausted (env : Int → Option Str) :
    ∀ (fuel : Nat) (p : Int),
      (∀ i : Nat, i < fuel → ∃ msg, env (p + (i : Int)) = some msg ∧ isConflictErr msg = true) →
      findAvailablePortAux env fuel p = .error (.exhausted 100) := by
  intro fuel
  induction fuel with
  | zero => intro p _; rfl
  | succ fuel ih =>
    intro p h
    rw [findAvailablePortAux]
    split
    · obtain ⟨msg, hm, hc⟩ := h 0 (by omega)
      rw [show p + ((0 : Nat) : Int) = p by push_cast; ring] at hm
      rw [hm]
      simp only [hc, reduceIte]
      exact ih (p + 1) (fun i hi => by
        obtain ⟨msg2, hm2, hc2⟩ := h (i + 1) (by omega)
        exact ⟨msg2, by rw [← hm2]; congr 1; push_cast; ring, hc2⟩)
    · rfl

theorem findAvailablePortAux_mono (env : Int → Option Str) :
    ∀ (fuel : Nat) (p q : Int),
      findAvailablePortAux env fuel p = .ok q → p ≤ q := by
  intro fuel
  induction fuel with
  | zero =>
    intro p q h
    exact absurd h (by rw [findAvailablePortAux]; simp)
  | succ fuel ih =>
    intro p q h
    rw [findAvailablePortAux] at h
    by_cases hle : p ≤ 65535
    · rw [if_pos hle] at h
      cases henv : env p with
      | none =>
        rw [henv] at h
        simp only [Except.ok.injEq] at h
        omega
      | some msg =>
        rw [henv] at h
        by_cases hc : isConflictErr msg = true
        · simp only [hc, reduceIte] at h
          have := ih (p + 1) q h
          omega
        · simp [hc] at h
    · rw [if_neg hle] at h
      exact absurd h (by simp)

theorem findAvailablePortLegacyAux_mono (env : Int → Option Str) :
    ∀ (fuel : Nat) (p q : Int),
      findAvailablePortLegacyAux env fuel p = some (.ok q) → p ≤ q := by
  intro fuel
  induction fuel with
  | zero =>
    intro p q h
    exact absurd h (by rw [findAvailablePortLegacyAux]; simp)
  | succ fuel ih =>
    intro p q h
    rw [findAvailablePortLegacyAux] at h
    cases henv : env p with
    | none =>
      rw [henv] at h
      simp only [Option.some.injEq, Except.ok.injEq] at h
      omega
    | some msg =>
      rw [henv] at h
      by_cases hc : isConflictErrLegacy msg = true
      · simp only [hc, reduceIte] at h
        have := ih (p + 1) q h
        omega
      · simp [hc] at h

theorem findAvailablePortLegacyAux_skips (env : Int → Option Str) :
    ∀ (n : Nat) (p : Int),
      (∀ i : Nat, i < n → ∃ msg, env (p + (i : Int)) = some msg ∧
        isConflictErrLegacy msg = true) →
      env (p + (n : Int)) = none →
      findAvailablePortLegacyAux env (n + 1) p = some (.ok (p + (n : Int))) := by
  intro n
  induction n with
  | zero =>
    intro p _ hfree
    rw [show p + ((0 : Nat) : Int) = p by push_cast; ring] at hfree ⊢
    rw [findAvailablePortLegacyAux, hfree]
  | succ n ih =>
    intro p h hfree
    obtain ⟨msg, hm, hc⟩ := h 0 (by omega)
    rw [show p + ((0 : Nat) : Int) = p by push_cast; ring] at hm
    rw [findAvailablePortLegacyAux, hm]
    simp only [hc, reduceIte]
    have hshifted : ∀ i : Nat, i < n → ∃ msg2, env ((p + 1) + (i : Int)) = some msg2 ∧
        isConflictErrLegacy msg2 = true := fun i hi => by
      obtain ⟨msg2, hm2, hc2⟩ := h (i + 1) (by omega)
      exact ⟨msg2, by rw [← hm2]; congr 1; push_cast; ring, hc2⟩
    have hfree2 : env ((p + 1) + (n : Int)) = none := by
      rw [← hfree]; congr 1; push_cast; ring
    rw [ih (p + 1) hshifted hfree2]
    congr 2
    push_cast
    ring

/-- A concrete bind environment: ports 1000-1099 are occupied (conflict
error), every other port is free. -/
def env100 : Int → Option Str := fun port =>
  if 1000 ≤ port ∧ port < 1100 then some ("address already in use".toList) else none

/-! ### Port configuration (`getPortFromEnv`, `prism.go` 249-283 and 804-823) -/

set_option maxRecDepth 10000 in
/-- Counterexample to C1 as stated: in the legacy `findAvailablePort`
(`prism.go` 527-551) with ports 1000-1099 all occupied by a conflict-class
error and port 1100 free, the scan performs 101 probes and returns port
1100 instead of failing with the exhausted error after 100 attempts. -/
theorem findAvailablePort_legacy_unbounded_counterexample :
    ((List.range 100).all fun i =>
      env100 (1000 + (i : Int)) == some ("address already in use".toList)) = true ∧
    findAvailablePortLegacyAux env100 200 1000 = some (.ok 1100) :=
  ⟨rfl, rfl⟩

/-- C1 (amended): the bounded resolver (`prism.go` 195-246) returns the
exhausted failure whenever 100 consecutive ports starting at `p` fail with a
conflict-class error, and stops immediately once the candidate exceeds
65535; the legacy resolver (`prism.go` 527-551) has no attempt bound: after
any run of `n` occupied ports followed by a free one it returns the free
port on probe `n + 1` rather than an exhausted failure. -/
theorem findAvailablePort_attempt_bound :
    (∀ (env : Int → Option Str) (p : Int),
      (∀ i : Nat, i < 100 → ∃ msg, env (p + (i : Int)) = some msg ∧
        isConflictErr msg = true) →
      findAvailablePort env p = .error (.exhausted 100)) ∧
    (∀ (env : Int → Option Str) (p : Int),
      65535 < p → findAvailablePort env p = .error (.exhausted 100)) ∧
    (∀ (env : Int → Option Str) (n : Nat) (p : Int),
      (∀ i : Nat, i < n → ∃ msg, env (p + (i : Int)) = some msg ∧
        isConflictErrLegacy msg = true) →
      env (p + (n : Int)) = none →
      findAvailablePortLegacyAux env (n + 1) p = some (.ok (p + (n : Int)))) := by
  refine ⟨?_, ?_, ?_⟩
  · intro env p h
    exact findAvailablePortAux_exhausted env 100 p h
  · intro env p hp
    show findAvailablePortAux env (99 + 1) p = .error (.exhausted 100)
    rw [findAvailablePortAux, if_neg (by omega)]
  · intro env n p h hfree
    exact findAvailablePortLegacyAux_skips env n p h hfree

set_option maxRecDepth 10000 in
theorem findAvailablePort_attempt_bound_witness :
    findAvailablePort env100 1000 = .error (.exhausted 100) ∧
    findAvailablePort env100 70000 = .error (.exhausted 100) ∧
    findAvailablePortLegacyAux env100 (100 + 1) 1000 =
      some (.ok (1000 + ((100 : Nat) : Int))) ∧
    (1000 + ((100 : Nat) : Int)) = 1100 := by
  refine ⟨?_, ?_, ?_, by norm_num⟩
  · exact findAvailablePort_attempt_bound.1 env100 1000 (fun i hi =>
      ⟨"address already in use".toList, by
        have hcond : (1000 : Int) ≤ 1000 + (i : Int) ∧ 1000 + (i : Int) < 1100 := by
          constructor <;> omega
        simp only [env100]
        rw [if_pos hcond], rfl⟩)
  · exact findAvailablePort_attempt_bound.2.1 env100 70000 (by norm_num)
  · exact findAvailablePort_attempt_bound.2.2 env100 100 1000
      (fun i hi =>
        ⟨"address already in use".toList, by
          have hcond : (1000 : Int) ≤ 1000 + (i : Int) ∧ 1000 + (i : Int) < 1100 := by
            constructor <;> omega
          simp only [env100]
          rw [if_pos hcond], rfl⟩)
      (by
        have hcond : ¬((1000 : Int) ≤ 1000 + ((100 : Nat) : Int) ∧
            1000 + ((100 : Nat) : Int) < 1100) := by
          push_cast
          norm_num
        simp only [env100]
        rw [if_neg hcond])

/-- C9: both `findAvailablePort` variants scan only forward: a successful
resolution starting at `p` never returns a port below `p`. -/
theorem findAvailablePort_monotone :
    (∀ (env : Int → Option Str) (p q : Int),
      findAvailablePort env p = .ok q → p ≤ q) ∧
    (∀ (env : Int → Option Str) (fuel : Nat) (p q : Int),
      findAvailablePortLegacyAux env fuel p = some (.ok q) → p ≤ q) :=
  ⟨fun env p q h => findAvailablePortAux_mono env 100 p q h,
   fun env fuel p q h => findAvailablePortLegacyAux_mono env fuel p q h⟩

theorem findAvailablePort_monotone_witness :
    findAvailablePort (fun _ => none) 5000 = .ok 5000 ∧ (5000 : Int) ≤ 5000 ∧
    findAvailablePortLegacyAux (fun _ => none) 1 6000 = some (.ok 6000) ∧
    (6000 : Int) ≤ 6000 :=
  ⟨rfl, findAvailablePort_monotone.1 (fun _ => none) 5000 5000 rfl,
   rfl, findAvailablePort_monotone.2 (fun _ => none) 1 6000 6000 rfl⟩

/-- One uploaded file part (`mime/multipart.FileHeader`): the handler reads
only `Filename`, `Size` and `Header`; `content` carries the file's raw
bytes, which the handler never touches. -/
structure FileHeader where
  filename : Str
  size : Int
  header : List (Str × Str)
  content : Str

/-- Parsed multipart form (`mime/multipart.Form`): `Value` maps field names
to value lists, `File` maps field names to file-header lists; `file = none`
models a nil `File` map (the handler checks `MultipartForm.File != nil`). -/
structure MultipartForm where
  value : List (Str × List Str)
  file : Option (List (Str × List FileHeader))

/-- The inbound request state read by the handler: method, Host header,
remote peer address, TLS flag, `URL.String()` (path and query), the header
multimap, the body stream (`none` models a nil `Body`), and the parsed
multipart form if any. -/
structure Request where
  method : Str
  host : Str
  remoteAddr : Str
  tls : Bool
  urlString : Str
  header : List (Str × List Str)
  body : Option Str
  multipartForm : Option MultipartForm

/-- A file-descriptor record placed in the response body (`prism.go`
634-638): filename, size and part headers only — it has no content field. -/
structure FileEntry where
  filename : Str
  size : Int
  header : List (Str × Str)

/-- A value of the multipart `formData` map. -/
inductive FormVal where
  | str (s : Str)
  | strs (ss : List Str)
  | files (fs : List FileEntry)

/-- The untyped `body` field of `RequestInfo`. -/
inductive BodyVal where
  | json (v : Json)
  | str (s : Str)
  | form (fields : List (Str × FormVal))

/-- `RequestInfo` (`prism.go` 511-518). -/
structure RequestInfo where
  fullURL : Str
  method : Str
  headers : List (Str × Str)
  body : BodyVal
  receivedTime : Str

/-- Go `strings.Join(values, ", ")`. -/
def joinComma : List Str → Str
  | [] => []
  | [v] => v
  | v :: vs => v ++ ',' :: ' ' :: joinComma vs

/-- Header folding (`prism.go` 608-611): one entry per name, the values
joined with ", ". -/
def foldHeaders (h : List (Str × List Str)) : List (Str × Str) :=
  h.map (fun p => (p.1, joinComma p.2))

/-- `c.GetHeader` / `http.Header.Get`: the first value under the (already
canonical) key, or the empty string. -/
def getHeader (r : Request) (key : Str) : Str :=
  match r.header.lookup key with
  | some (v :: _) => v
  | _ => []

/-- `getFullURL` (`prism.go` 286-298 / 590-603). -/
def getFullURL (r : Request) : Str :=
  (if r.tls then "https".toList else "http".toList) ++ "://".toList ++
    (if r.host = [] then r.remoteAddr else r.host) ++ r.urlString

/-- Form-field processing (`prism.go` 622-628): a single value collapses to
the string itself, repeated values stay a sequence. -/
def fieldVal : List Str → FormVal
  | [v] => .str v
  | vs => .strs vs

/-- File processing (`prism.go` 634-638): only filename, size and the part
headers are copied; the content is never read. -/
def fileEntry (f : FileHeader) : FileEntry :=
  ⟨f.filename, f.size, f.header⟩

/-- The `formData` map (`prism.go` 619-641): field entries first, then file
entries (a file entry shadows a field entry of the same name, as the later
map insertion does in Go). -/
def formDataOf (m : MultipartForm) : List (Str × FormVal) :=
  m.value.map (fun p => (p.1, fieldVal p.2)) ++
    (m.file.getD []).map (fun p => (p.1, FormVal.files (p.2.map fileEntry)))

/-- `c.Request.MultipartForm != nil && c.Request.MultipartForm.File != nil`
(`prism.go` 617). -/
def hasFileParts (r : Request) : Bool :=
  match r.multipartForm with
  | some m => m.file.isSome
  | none => false

/-- Two-space indentation at nesting depth `d`. -/
def indentOf (d : Nat) : Str := List.replicate (2 * d) ' '

mutual

/-- Model of `json.MarshalIndent(v, "", "  ")`, used for the console
rendering of a JSON body (`prism.go` 661-662). -/
def serIndent (depth : Nat) : Json → Str
  | .null => litNull
  | .bool true => litTrue
  | .bool false => litFalse
  | .num m q => serNum m q
  | .str s => '"' :: escStr s ++ ['"']
  | .arr [] => ['[', ']']
  | .arr (x :: xs) =>
    '[' :: '\n' :: serIndentElems (depth + 1) (x :: xs) ++
      '\n' :: indentOf depth ++ [']']
  | .obj [] => [lbrace, rbrace]
  | .obj (f :: fs) =>
    lbrace :: '\n' :: serIndentFields (depth + 1) (f :: fs) ++
      '\n' :: indentOf depth ++ [rbrace]

/-- Elements of an indented array rendering. -/
def serIndentElems (depth : Nat) : List Json → Str
  | [] => []
  | [x] => indentOf depth ++ serIndent depth x
  | x :: xs =>
    indentOf depth ++ serIndent depth x ++ ',' :: '\n' :: serIndentElems depth xs

/-- Members of an indented object rendering. -/
def serIndentFields (depth : Nat) : List (Str × Json) → Str
  | [] => []
  | [(k, v)] =>
    indentOf depth ++ '"' :: escStr k ++ '"' :: ':' :: ' ' :: serIndent depth v
  | (k, v) :: fs =>
    indentOf depth ++ '"' :: escStr k ++ '"' :: ':' :: ' ' :: serIndent depth v ++
      ',' :: '\n' :: serIndentFields depth fs

end

/-- `echoHandler` (`prism.go` 606-699; logging elided).  Returns the
`RequestInfo` sent as the JSON response, the console rendering of the body
(`bodyStr`), and the body stream left on the request after the handler ran
(the handler re-buffers what it read, `prism.go` 647-651).  `now` is the
formatted wall-clock time (`time.Now().Format("2006-01-02 15:04:05")`),
passed as an explicit input. -/
def echoHandler (r : Request) (now : Str) : RequestInfo × Str × Option Str :=
  let headers := foldHeaders r.header
  if hasFileParts r then
    let m := r.multipartForm.getD ⟨[], none⟩
    (⟨getFullURL r, r.method, headers, .form (formDataOf m), now⟩,
      "[Multipart Form Data with Files]".toList, r.body)
  else
    let bodyBytes := r.body.getD []
    let newBody : Option Str := match r.body with
      | none => none
      | some _ => some bodyBytes
    let contentType := getHeader r ("Content-Type".toList)
    if containsSub contentType ("application/json".toList) &&
        decide (0 < bodyBytes.length) then
      match parseJson bodyBytes with
      | some v =>
        (⟨getFullURL r, r.method, headers, .json v, now⟩, serIndent 0 v, newBody)
      | none =>
        (⟨getFullURL r, r.method, headers, .str bodyBytes, now⟩, bodyBytes, newBody)
    else
      (⟨getFullURL r, r.method, headers, .str bodyBytes, now⟩, bodyBytes, newBody)

/-! ### Theorems for the normalization claims -/

/-- URL reconstruction as the specification words it (for C6): scheme is
"https" exactly when the connection is TLS-terminated and "http" otherwise;
host is the Host header, falling back to the remote peer address when the
Host header is empty; path and query are appended verbatim. -/
def fullURLSpec (r : Request) : Str :=
  (if r.tls then "https".toList else "http".toList) ++ "://".toList ++
    (if r.host = [] then r.remoteAddr else r.host) ++ r.urlString

/-- In every branch, the `getFullURL`-based handler's `full_url` equals the
spec's reconstruction (helper for C6). -/
theorem echoHandler_fullURL (r : Request) (now : Str) :
    (echoHandler r now).1.fullURL = fullURLSpec r := by
  unfold echoHandler
  dsimp only []
  repeat' split
  all_goals rfl

/-- `RequestInfo` of the earliest variant (`prism.go` 13-19): no
received-time field. -/
structure RequestInfoV0 where
  fullURL : Str
  method : Str
  headers : List (Str × Str)
  body : BodyVal

/-- The `/echo` handler of the earliest variant (`prism.go` 27-115): the
same body classification as `echoHandler`, but `FullURL` is
`c.Request.URL.String()` alone — the path and query, with no scheme, host,
TLS check or RemoteAddr fallback — and no received-time field. -/
def echoHandlerV0 (r : Request) : RequestInfoV0 × Str × Option Str :=
  let headers := foldHeaders r.header
  if hasFileParts r then
    let m := r.multipartForm.getD ⟨[], none⟩
    (⟨r.urlString, r.method, headers, .form (formDataOf m)⟩,
      "[Multipart Form Data with Files]".toList, r.body)
  else
    let bodyBytes := r.body.getD []
    let newBody : Option Str := match r.body with
      | none => none
      | some _ => some bodyBytes
    let contentType := getHeader r ("Content-Type".toList)
    if containsSub contentType ("application/json".toList) &&
        decide (0 < bodyBytes.length) then
      match parseJson bodyBytes with
      | some v =>
        (⟨r.urlString, r.method, headers, .json v⟩, serIndent 0 v, newBody)
      | none =>
        (⟨r.urlString, r.method, headers, .str bodyBytes⟩, bodyBytes, newBody)
    else
      (⟨r.urlString, r.method, headers, .str bodyBytes⟩, bodyBytes, newBody)

/-- A TLS-terminated request with a Host header and a path-and-query URL. -/
def reqTls : Request :=
  { method := "GET".toList, host := "example.com".toList,
    remoteAddr := "10.0.0.1:443".toList, tls := true,
    urlString := "/echo?x=1".toList, header := [], body := none,
    multipartForm := none }

/-- Counterexample to C6 as stated, in the earliest variant (`prism.go`
94-100): on a TLS request to host example.com, that handler's `full_url` is
the path and query alone — it differs from the scheme + host + path + query
reconstruction the claim requires. -/
theorem echoHandlerV0_fullURL_counterexample :
    (echoHandlerV0 reqTls).1.fullURL = "/echo?x=1".toList ∧
    fullURLSpec reqTls = "https://example.com/echo?x=1".toList ∧
    (echoHandlerV0 reqTls).1.fullURL ≠ fullURLSpec reqTls :=
  ⟨rfl, rfl, by decide⟩

/-- C6 (amended): the handlers that build the URL with `getFullURL`
(`prism.go` 286-298 / 590-603) produce `full_url` as scheme + host + path +
query — "https" exactly when the connection is TLS-terminated, the Host
header falling back to the remote peer address when it is empty, path and
query appended verbatim — for every request; the earliest variant
(`prism.go` 94-100) instead uses `URL.String()` alone: the path and query,
with no scheme, host, TLS check or peer-address fallback. -/
theorem echoHandler_fullURL_amended :
    (∀ (r : Request) (now : Str), (echoHandler r now).1.fullURL = fullURLSpec r) ∧
    (∀ r : Request, (echoHandlerV0 r).1.fullURL = r.urlString) := by
  refine ⟨echoHandler_fullURL, ?_⟩
  intro r
  unfold echoHandlerV0
  dsimp only []
  repeat' split
  all_goals rfl

/-- C10: request normalization is deterministic in everything except the
timestamp: with the request fixed, the produced `full_url`, `method`,
`headers` and `body` fields, the console rendering and the replayed body
stream do not depend on the clock value. -/
theorem echoHandler_deterministic (r : Request) (t1 t2 : Str) :
    (echoHandler r t1).1.fullURL = (echoHandler r t2).1.fullURL ∧
    (echoHandler r t1).1.method = (echoHandler r t2).1.method ∧
    (echoHandler r t1).1.headers = (echoHandler r t2).1.headers ∧
    (echoHandler r t1).1.body = (echoHandler r t2).1.body ∧
    (echoHandler r t1).2.1 = (echoHandler r t2).2.1 ∧
    (echoHandler r t1).2.2 = (echoHandler r t2).2.2 := by
  refine ⟨?_, ?_, ?_, ?_, ?_, ?_⟩ <;>
    (unfold echoHandler
     dsimp only []
     repeat' split
     all_goals rfl)

/-- C5: for every non-multipart request, after the handler runs the body
stream holds exactly the original raw bytes: a nil stream stays nil, and a
stream of bytes `bs` is re-buffered to exactly `bs`, so a downstream reader
sees the identical bytes. -/
theorem echoHandler_body_replay (r : Request) (now : Str)
    (h : hasFileParts r = false) :
    (echoHandler r now).2.2 = r.body := by
  unfold echoHandler
  dsimp only []
  rw [if_neg (by simp [h])]
  repeat' split
  all_goals simp_all

/-- C8 (amended): the handler always produces the folded header map and a
body; in a non-multipart request a missing or empty body yields the empty
string; and the body field can be the JSON value `null` only when the
request itself carried a non-empty JSON document parsing to `null` (for
example the body "null" under an `application/json` Content-Type). -/
theorem echoHandler_body_present (r : Request) (now : Str) :
    ((echoHandler r now).1.headers = foldHeaders r.header) ∧
    (hasFileParts r = false → (r.body = none ∨ r.body = some []) →
      (echoHandler r now).1.body = .str []) ∧
    (∀ v : Json, (echoHandler r now).1.body = .json v →
      ∃ bs, r.body = some bs ∧ bs ≠ [] ∧ parseJson bs = some v) := by
  refine ⟨?_, ?_, ?_⟩
  · unfold echoHandler
    dsimp only []
    repeat' split
    all_goals rfl
  · intro hmp hempty
    have hbb : r.body.getD [] = [] := by rcases hempty with h | h <;> simp [h]
    unfold echoHandler
    dsimp only []
    rw [if_neg (by simp [hmp]), hbb]
    rw [if_neg (by simp)]
  · intro v hv
    by_cases hmp : hasFileParts r = true
    · exfalso
      unfold echoHandler at hv
      dsimp only [] at hv
      rw [if_pos hmp] at hv
      simp at hv
    · have hmp2 : hasFileParts r = false := by simpa using hmp
      unfold echoHandler at hv
      dsimp only [] at hv
      rw [if_neg (by simp [hmp2])] at hv
      by_cases hcond : (containsSub (getHeader r ("Content-Type".toList))
          ("application/json".toList) && decide (0 < (r.body.getD []).length)) = true
      · rw [if_pos hcond] at hv
        cases hb : r.body with
        | none =>
          exfalso
          rw [hb] at hcond
          simp at hcond
        | some bs =>
          rw [hb] at hv
          simp only [Option.getD_some] at hv
          cases hpj : parseJson bs with
          | some w =>
            rw [hpj] at hv
            simp only [BodyVal.json.injEq] at hv
            subst hv
            refine ⟨bs, rfl, ?_, hpj⟩
            intro hbs
            rw [hb, hbs] at hcond
            simp at hcond
          | none =>
            rw [hpj] at hv
            simp at hv
      · rw [if_neg hcond] at hv
        simp at hv

/-- A GET-style request with no body at all. -/
def reqEmpty : Request :=
  { method := "GET".toList, host := "example.com".toList,
    remoteAddr := "10.0.0.1:5555".toList, tls := false,
    urlString := "/webhook".toList,
    header := [("Accept".toList, ["*/*".toList])],
    body := none, multipartForm := none }

/-- A request carrying the JSON document `null`. -/
def reqNull : Request :=
  { method := "POST".toList, host := "example.com".toList,
    remoteAddr := "10.0.0.1:5555".toList, tls := false,
    urlString := "/webhook".toList,
    header := [("Content-Type".toList, ["application/json".toList])],
    body := some ("null".toList), multipartForm := none }

/-- Counterexample to C8 as stated ("body ... always non-null"): a request
whose own body is the JSON document `null` under an `application/json`
Content-Type is echoed with the body field equal to JSON `null`, which the
response serializer renders as the four bytes "null". -/
theorem echoHandler_null_body_counterexample :
    (echoHandler reqNull ("2026-10-11 12:00:00".toList)).1.body = .json .null ∧
    serJson .null = "null".toList :=
  ⟨rfl, rfl⟩

theorem echoHandler_body_present_witness :
    (echoHandler reqEmpty ("t".toList)).1.headers = foldHeaders reqEmpty.header ∧
    (echoHandler reqEmpty ("t".toList)).1.body = .str [] ∧
    (∃ bs, reqNull.body = some bs ∧ bs ≠ [] ∧ parseJson bs = some .null) := by
  refine ⟨(echoHandler_body_present reqEmpty ("t".toList)).1,
    (echoHandler_body_present reqEmpty ("t".toList)).2.1 rfl (Or.inl rfl),
    (echoHandler_body_present reqNull ("2026-10-11 12:00:00".toList)).2.2 .null rfl⟩

/-- The JSON document body used by the C2 witness. -/
def jsonDoc : Str := lbrace :: '"' :: 'a' :: '"' :: ':' :: '1' :: [rbrace]

/-- A request carrying `jsonDoc` with an `application/json` Content-Type. -/
def reqJson : Request :=
  { method := "POST".toList, host := "example.com".toList,
    remoteAddr := "10.0.0.1:5555".toList, tls := false,
    urlString := "/webhook".toList,
    header := [("Content-Type".toList, ["application/json; charset=utf-8".toList])],
    body := some jsonDoc, multipartForm := none }

theorem echoHandler_body_replay_witness :
    hasFileParts reqJson = false ∧
    (echoHandler reqJson ("t".toList)).2.2 = some jsonDoc := by
  refine ⟨rfl, ?_⟩
  rw [echoHandler_body_replay reqJson ("t".toList) rfl]
  rfl

/-- Erase the raw content of one file part (used to state that the handler's
output does not depend on the file bytes). -/
def stripFile (f : FileHeader) : FileHeader :=
  { f with content := [] }

/-- Erase the raw content of every file part of a multipart form. -/
def stripContents (m : MultipartForm) : MultipartForm :=
  { m with file := m.file.map (fun l => l.map (fun p => (p.1, p.2.map stripFile))) }

theorem map_fileEntry_strip (fl : List FileHeader) :
    (fl.map stripFile).map fileEntry = fl.map fileEntry := by
  induction fl with
  | nil => rfl
  | cons f fs ih => simp [ih, stripFile, fileEntry]

theorem formDataOf_stripContents (m : MultipartForm) :
    formDataOf (stripContents m) = formDataOf m := by
  obtain ⟨val, file⟩ := m
  cases file with
  | none => rfl
  | some l =>
    simp only [formDataOf, stripContents, Option.map_some', Option.getD_some]
    congr 1
    induction l with
    | nil => rfl
    | cons p ps ih =>
      simp only [List.map_cons, List.cons.injEq]
      exact ⟨by rw [map_fileEntry_strip], by simpa using ih⟩

/-- C3: when the multipart form is present with a file map, the body is the
`formData` mapping: each form field maps to its single value or to the
sequence of repeated values, each file field maps to the sequence of
descriptor records built by `fileEntry` (filename, size and part headers
only — `FileEntry` has no content field); the console rendering is the fixed
literal; and the entire handler output is unchanged when the raw file bytes
are replaced, so the file contents appear nowhere in the response. -/
theorem echoHandler_multipart (r : Request) (now : Str) (m : MultipartForm)
    (files : List (Str × List FileHeader))
    (hm : r.multipartForm = some m) (hf : m.file = some files) :
    (echoHandler r now).1.body = .form (formDataOf m) ∧
    (echoHandler r now).2.1 = "[Multipart Form Data with Files]".toList ∧
    (∀ k vs, (k, vs) ∈ m.value → (k, fieldVal vs) ∈ formDataOf m) ∧
    (∀ k fl, (k, fl) ∈ files → (k, FormVal.files (fl.map fileEntry)) ∈ formDataOf m) ∧
    (∀ (r2 : Request) (m2 : MultipartForm), r2.multipartForm = some m2 →
      stripContents m2 = stripContents m →
      r2.method = r.method → r2.host = r.host → r2.remoteAddr = r.remoteAddr →
      r2.tls = r.tls → r2.urlString = r.urlString → r2.header = r.header →
      r2.body = r.body →
      echoHandler r2 now = echoHandler r now) := by
  have hfp : hasFileParts r = true := by simp [hasFileParts, hm, hf]
  refine ⟨?_, ?_, ?_, ?_, ?_⟩
  · unfold echoHandler
    dsimp only []
    rw [if_pos hfp, hm]
    rfl
  · unfold echoHandler
    dsimp only []
    rw [if_pos hfp]
  · intro k vs hkv
    unfold formDataOf
    exact List.mem_append_left _ (List.mem_map_of_mem _ hkv)
  · intro k fl hkfl
    unfold formDataOf
    apply List.mem_append_right
    rw [hf]
    simp only [Option.getD_some]
    exact List.mem_map_of_mem _ hkfl
  · intro r2 m2 hm2 hstrip e1 e2 e3 e4 e5 e6 e7
    have hfile2 : m2.file.isSome = true := by
      have h0 := congrArg (fun x => x.file) hstrip
      simp only [stripContents] at h0
      cases h2 : m2.file with
      | none =>
        rw [h2, hf] at h0
        simp at h0
      | some _ => rfl
    have hfp2 : hasFileParts r2 = true := by simp [hasFileParts, hm2, hfile2]
    have hfd : formDataOf m2 = formDataOf m := by
      rw [← formDataOf_stripContents m2, hstrip, formDataOf_stripContents]
    have hurl : getFullURL r2 = getFullURL r := by
      unfold getFullURL
      rw [e2, e3, e4, e5]
    unfold echoHandler
    dsimp only []
    rw [if_pos hfp2, if_pos hfp, hm2, hm]
    simp only [Option.getD_some]
    rw [hfd, hurl, e1, e6, e7]

/-- An uploaded file named report.txt of 42 bytes (the spec's example),
including its raw bytes. -/
def fileReport : FileHeader :=
  ⟨"report.txt".toList, 42, [("Content-Type".toList, "text/plain".toList)],
    "0123456789012345678901234567890123456789AB".toList⟩

/-- The same file part with different raw bytes. -/
def fileReport2 : FileHeader :=
  { fileReport with content := "XXXXXXXXXXXXXXXXXXXXXXXXXXXXXXXXXXXXXXXXXX".toList }

/-- A multipart form with one text field and one file field. -/
def formReport : MultipartForm :=
  ⟨[("note".toList, ["hi".toList])], some [("file".toList, [fileReport])]⟩

/-- `formReport` with the file's raw bytes replaced. -/
def formReport2 : MultipartForm :=
  ⟨[("note".toList, ["hi".toList])], some [("file".toList, [fileReport2])]⟩

/-- A multipart request carrying `formReport`. -/
def reqMulti : Request :=
  { method := "POST".toList, host := "example.com".toList,
    remoteAddr := "10.0.0.1:5555".toList, tls := false,
    urlString := "/webhook".toList, header := [], body := none,
    multipartForm := some formReport }

/-- `reqMulti` with the file's raw bytes replaced. -/
def reqMulti2 : Request :=
  { reqMulti with multipartForm := some formReport2 }

theorem echoHandler_multipart_witness :
    (echoHandler reqMulti ("t".toList)).1.body =
      .form [("note".toList, .str ("hi".toList)),
        ("file".toList, .files [⟨"report.txt".toList, 42,
          [("Content-Type".toList, "text/plain".toList)]⟩])] ∧
    (echoHandler reqMulti ("t".toList)).2.1 =
      "[Multipart Form Data with Files]".toList ∧
    ("file".toList, FormVal.files [fileEntry fileReport]) ∈ formDataOf formReport ∧
    echoHandler reqMulti2 ("t".toList) = echoHandler reqMulti ("t".toList) := by
  have h := echoHandler_multipart reqMulti ("t".toList) formReport
    [("file".toList, [fileReport])] rfl rfl
  refine ⟨?_, h.2.1, ?_, ?_⟩
  · rw [h.1]
    rfl
  · exact h.2.2.2.1 ("file".toList) [fileReport] (by simp)
  · exact h.2.2.2.2 reqMulti2 formReport2 rfl (by rfl) rfl rfl rfl rfl rfl rfl rfl

end Prism
